import Mathlib

/-!
Verification of `scripts/zulip_emoji_merge_delegate.py`.

The script fetches recent messages from the "PR reviews" channel, scans them
for a link to a given pull request, and reconciles the three status reactions
(`peace_sign`, `bors`, `merge`) on each matching message according to the
label text passed on the command line.

We embed:
* the fragment of Python regular expressions the script exercises
  (literal characters, the `.` wildcard, backslash escaping, `re.escape`,
  `pattern.search`);
* the reaction state of a message as the list of emoji names present on it
  (existence is binary per emoji name: `add_reaction` makes the emoji
  present, `remove_reaction` makes it absent);
* the reaction-mutation calls the script issues, and their effect on the
  fetched messages.
-/

namespace ZulipEmoji

/-- Tokens for the fragment of Python `re` patterns the script builds:
a literal character, or the `.` wildcard that matches any character. -/
inductive RTok where
  | lit (c : Char)
  | any
deriving DecidableEq

/-- Compile a pattern, one character at a time; `esc` records whether the
previous character was an unconsumed backslash.  An escaped character is a
literal, an unescaped `.` is the wildcard, any other character is a literal.
(A trailing lone backslash is a compile error in Python; the patterns the
script builds never end in one, and we map that corner to the empty
remainder.) -/
def parseAux (esc : Bool) : List Char → List RTok
  | [] => []
  | c :: rest =>
    if esc then RTok.lit c :: parseAux false rest
    else if c == '\\' then parseAux true rest
    else if c == '.' then RTok.any :: parseAux false rest
    else RTok.lit c :: parseAux false rest

/-- Compile a whole pattern, starting outside any escape. -/
def parsePattern (p : List Char) : List RTok :=
  parseAux false p

/-- Whether a backslash is still pending after scanning the text from escape
state `esc`. -/
def pendingAfter : Bool → List Char → Bool
  | esc, [] => esc
  | esc, c :: rest => pendingAfter (!esc && c == '\\') rest

/-- Does the token list match, consuming exactly one character per token,
starting at the head of the text? -/
def matchesAt : List RTok → List Char → Bool
  | [], _ => true
  | _ :: _, [] => false
  | RTok.lit c :: ts, d :: ds => (c == d) && matchesAt ts ds
  | RTok.any :: ts, _ :: ds => matchesAt ts ds

/-- Python `pattern.search`: try to match at each start position in turn. -/
def searchTokens (ts : List RTok) : List Char → Bool
  | [] => matchesAt ts []
  | c :: cs => matchesAt ts (c :: cs) || searchTokens ts cs

/-- The characters escaped with a backslash by `re.escape` (Python ≥ 3.7). -/
def reSpecial : List Char :=
  ['(', ')', '[', ']', '{', '}', '?', '*', '+', '-', '|', '^', '$',
   '\\', '.', '&', '~', '#', ' ', '\t', '\n', '\r', '\u000B', '\u000C']

/-- Python `re.escape` on a character list. -/
def reEscape : List Char → List Char
  | [] => []
  | c :: rest =>
    if c ∈ reSpecial then '\\' :: c :: reEscape rest else c :: reEscape rest

/-- The literal regex source the script prepends to the escaped pull-request
number: `r'https://github\.com/leanprover-community/mathlib4/pull/'`. -/
def basePattern : List Char :=
  "https://github\\.com/leanprover-community/mathlib4/pull/".data

/-- The plain link text the base pattern stands for. -/
def linkText : List Char :=
  "https://github.com/leanprover-community/mathlib4/pull/".data

/-- `pr_pattern = re.compile(r'https://github\.com/...' + re.escape(pr_number))`. -/
def pr_pattern (pr_number : String) : List RTok :=
  parsePattern (basePattern ++ reEscape pr_number.data)

/-- `pr_pattern.search(content)`, as a Boolean. -/
def prSearch (pr_number content : String) : Bool :=
  searchTokens (pr_pattern pr_number) content.data

/-- Does `pat` occur at the head of the text, character by character? -/
def litHere : List Char → List Char → Bool
  | [], _ => true
  | _ :: _, [] => false
  | c :: cs, d :: ds => (c == d) && litHere cs ds

/-- Does `pat` occur contiguously anywhere in the text?  This is the
spec-side notion "the content contains the literal character sequence". -/
def litOccurs (pat : List Char) : List Char → Bool
  | [] => litHere pat []
  | d :: ds => litHere pat (d :: ds) || litOccurs pat ds

/-- Python `s.startswith(p)`. -/
def startswith (s p : String) : Bool :=
  litHere p.data s.data

/-- A reaction-mutation request issued to the chat service: either
`client.add_reaction` or `client.remove_reaction` for one emoji name. -/
inductive Call where
  | add (emoji : String)
  | remove (emoji : String)
deriving DecidableEq

/-- Effect of one call on the emoji names present on a message.  Existence is
binary per emoji name: adding makes the emoji present (a no-op when already
present), removing makes it absent. -/
def applyCall (reactions : List String) : Call → List String
  | Call.add e => if reactions.contains e then reactions else reactions ++ [e]
  | Call.remove e => reactions.filter (fun r => r != e)

/-- Effect of a sequence of calls, applied in order. -/
def applyCalls (reactions : List String) (cs : List Call) : List String :=
  cs.foldl applyCall reactions

/-- The calls the script issues for one matched message, in source order:
it snapshots which of the three status emoji are present, unconditionally
removes all three, then branches on the label.  `labels` is the singleton
list `[LABEL]` exactly as in the source. -/
def reconcileCalls (LABEL : String) (reactions : List String) : List Call :=
  let has_peace_sign := reactions.any (fun r => r == "peace_sign")
  let has_bors := reactions.any (fun r => r == "bors")
  let _has_merge := reactions.any (fun r => r == "merge")
  let labels := [LABEL]
  [Call.remove "peace_sign", Call.remove "bors", Call.remove "merge"] ++
  (if labels.contains "delegated" then
    [Call.add "peace_sign"]
  else if labels.contains "ready-to-merge" then
    (if has_peace_sign then [Call.remove "peace_sign"] else []) ++
      [Call.add "bors"]
  else if startswith LABEL "[Merged by Bors]" then
    (if has_peace_sign then [Call.remove "peace_sign"] else []) ++
      (if has_bors then [Call.remove "bors"] else []) ++
      [Call.add "merge"]
  else [])

/-- Final reaction state of a matched message after the reconciliation runs
on it. -/
def reconcile (LABEL : String) (reactions : List String) : List String :=
  applyCalls reactions (reconcileCalls LABEL reactions)

/-- A fetched channel message: identifier, text body and the emoji names
currently reacting to it. -/
structure Message where
  id : Nat
  content : String
  reactions : List String
deriving DecidableEq

/-- All calls issued by the main loop over the fetched messages, in order:
each message whose content matches `pr_pattern` contributes its
reconciliation calls addressed to its id, computed from its fetched
(snapshotted) reactions.  The loop has no early exit. -/
def scriptCalls (LABEL pr_number : String) (messages : List Message) :
    List (Nat × Call) :=
  messages.flatMap fun m =>
    if prSearch pr_number m.content then
      (reconcileCalls LABEL m.reactions).map fun c => (m.id, c)
    else []

/-- Effect of one id-addressed call on the channel: it mutates the reactions
of the message carrying that id and leaves every other message unchanged. -/
def applyIdCall (msgs : List Message) (ic : Nat × Call) : List Message :=
  msgs.map fun m =>
    if m.id == ic.1 then { m with reactions := applyCall m.reactions ic.2 }
    else m

/-- Final state of the fetched messages after the whole script runs: every
issued call is applied to the channel in order. -/
def runScript (LABEL pr_number : String) (messages : List Message) :
    List Message :=
  (scriptCalls LABEL pr_number messages).foldl applyIdCall messages

/-- The reconciliation call sequence with the presence-guarded re-removals
(lines 81-88 and 91-100 of the source) deleted; everything else is as in
`reconcileCalls`. -/
def reconcileCalls_noguard (LABEL : String) (_reactions : List String) :
    List Call :=
  let labels := [LABEL]
  [Call.remove "peace_sign", Call.remove "bors", Call.remove "merge"] ++
  (if labels.contains "delegated" then [Call.add "peace_sign"]
  else if labels.contains "ready-to-merge" then [Call.add "bors"]
  else if startswith LABEL "[Merged by Bors]" then [Call.add "merge"]
  else [])

/-- Final reaction state of a matched message under the guard-free variant. -/
def reconcile_noguard (LABEL : String) (reactions : List String) :
    List String :=
  applyCalls reactions (reconcileCalls_noguard LABEL reactions)

/-- The state right after the three unconditional removals: all three status
emoji filtered out, in the order the source removes them. -/
def clearStatus (s : List String) : List String :=
  ((s.filter (fun r => r != "peace_sign")).filter (fun r => r != "bors")).filter
    (fun r => r != "merge")

/-- The calls among an id-addressed call list that are aimed at message `i`. -/
def callsFor (i : Nat) (calls : List (Nat × Call)) : List Call :=
  (calls.filter fun ic => ic.1 == i).map Prod.snd

end ZulipEmoji

namespace ZulipEmoji

/-! Lemmas about pattern compilation and searching. -/

lemma parseAux_append (ys : List Char) (xs : List Char) (esc : Bool)
    (h : pendingAfter esc xs = false) :
    parseAux esc (xs ++ ys) = parseAux esc xs ++ parseAux false ys := by
  induction xs generalizing esc with
  | nil =>
    rw [pendingAfter] at h
    subst h
    simp [parseAux]
  | cons c rest ih =>
    rw [pendingAfter] at h
    cases esc with
    | true =>
      rw [List.cons_append, parseAux]
      simp only [if_true]
      rw [parseAux]
      simp only [if_true, List.cons_append]
      rw [ih false (by simpa using h)]
    | false =>
      by_cases hb : (c == '\\') = true
      · rw [List.cons_append, parseAux]
        simp only [if_false, hb, if_true, Bool.false_eq_true]
        rw [parseAux]
        simp only [if_false, hb, if_true, Bool.false_eq_true]
        rw [ih true (by simpa [hb] using h)]
      · have hrest : pendingAfter false rest = false := by
          simpa [hb] using h
        by_cases hd : (c == '.') = true
        · rw [List.cons_append, parseAux]
          simp only [if_false, hb, hd, if_true, Bool.false_eq_true]
          rw [parseAux]
          simp only [if_false, hb, hd, if_true, Bool.false_eq_true,
            List.cons_append]
          rw [ih false hrest]
        · rw [List.cons_append, parseAux]
          simp only [if_false, hb, hd, Bool.false_eq_true]
          rw [parseAux]
          simp only [if_false, hb, hd, Bool.false_eq_true, List.cons_append]
          rw [ih false hrest]

lemma parsePattern_base (ys : List Char) :
    parsePattern (basePattern ++ ys) =
      linkText.map RTok.lit ++ parsePattern ys := by
  rw [parsePattern, parseAux_append ys basePattern false (by decide),
    show parseAux false basePattern = linkText.map RTok.lit from by decide,
    parsePattern]

lemma parsePattern_reEscape (zs : List Char) :
    parsePattern (reEscape zs) = zs.map RTok.lit := by
  induction zs with
  | nil => rfl
  | cons c rest ih =>
    rw [reEscape]
    by_cases h : c ∈ reSpecial
    · rw [if_pos h, parsePattern,
        show parseAux false ('\\' :: c :: reEscape rest) =
          RTok.lit c :: parseAux false (reEscape rest) from rfl]
      rw [parsePattern] at ih
      rw [ih, List.map_cons]
    · have hb : ¬ ((c == '\\') = true) := by
        simp only [beq_iff_eq]
        exact fun he => h (he ▸ (by decide : '\\' ∈ reSpecial))
      have hd : ¬ ((c == '.') = true) := by
        simp only [beq_iff_eq]
        exact fun he => h (he ▸ (by decide : '.' ∈ reSpecial))
      rw [if_neg h, parsePattern, parseAux]
      simp only [if_false, hb, hd, Bool.false_eq_true]
      rw [parsePattern] at ih
      rw [ih, List.map_cons]

lemma matchesAt_lits (pat text : List Char) :
    matchesAt (pat.map RTok.lit) text = litHere pat text := by
  induction pat generalizing text with
  | nil => cases text <;> rfl
  | cons c cs ih =>
    cases text with
    | nil => rfl
    | cons d ds => simp [matchesAt, litHere, ih]

lemma searchTokens_lits (pat text : List Char) :
    searchTokens (pat.map RTok.lit) text = litOccurs pat text := by
  induction text with
  | nil => simp [searchTokens, litOccurs, matchesAt_lits]
  | cons d ds ih => simp [searchTokens, litOccurs, matchesAt_lits, ih]

/-! Lemmas about the reaction state after reconciliation. -/

lemma mem_clearStatus {r : String} {s : List String} :
    r ∈ clearStatus s ↔
      r ∈ s ∧ r ≠ "peace_sign" ∧ r ≠ "bors" ∧ r ≠ "merge" := by
  simp only [clearStatus, List.mem_filter, bne_iff_ne, ne_eq, and_assoc]

lemma not_mem_clearStatus (s : List String) (e : String)
    (he : e = "peace_sign" ∨ e = "bors" ∨ e = "merge") :
    e ∉ clearStatus s := by
  rcases he with h | h | h <;> subst h <;> simp [mem_clearStatus]

lemma applyCalls_append (s : List String) (xs ys : List Call) :
    applyCalls s (xs ++ ys) = applyCalls (applyCalls s xs) ys :=
  List.foldl_append applyCall s xs ys

lemma applyCalls_clear (s : List String) :
    applyCalls s
      [Call.remove "peace_sign", Call.remove "bors", Call.remove "merge"] =
      clearStatus s := rfl

lemma clearStatus_filter (s : List String) (e : String)
    (he : e = "peace_sign" ∨ e = "bors" ∨ e = "merge") :
    (clearStatus s).filter (fun r => r != e) = clearStatus s := by
  rw [List.filter_eq_self]
  intro a ha
  rw [mem_clearStatus] at ha
  rcases he with h | h | h <;> subst h <;>
    simp [ha.2.1, ha.2.2.1, ha.2.2.2]

lemma applyCalls_add (s : List String) (e : String) (h : e ∉ s) :
    applyCalls s [Call.add e] = s ++ [e] := by
  simp [applyCalls, applyCall, h]

lemma reconcile_eq (LABEL : String) (s : List String) :
    reconcile LABEL s =
      clearStatus s ++
        (if "delegated" == LABEL then ["peace_sign"]
         else if "ready-to-merge" == LABEL then ["bors"]
         else if startswith LABEL "[Merged by Bors]" then ["merge"]
         else []) := by
  unfold reconcile reconcileCalls
  simp only [List.contains_cons, List.contains_nil, Bool.or_false]
  rw [applyCalls_append, applyCalls_clear]
  by_cases h1 : ("delegated" == LABEL)
  · simp only [h1, if_pos]
    exact applyCalls_add _ _ (not_mem_clearStatus s _ (Or.inl rfl))
  · simp only [h1, if_neg, Bool.false_eq_true, not_false_iff]
    by_cases h2 : ("ready-to-merge" == LABEL)
    · simp only [h2, if_pos]
      rw [applyCalls_append]
      have hg : ∀ g : Bool,
          applyCalls (clearStatus s)
            (if g then [Call.remove "peace_sign"] else []) = clearStatus s := by
        intro g
        cases g
        · rfl
        · simp [applyCalls, applyCall, clearStatus_filter s _ (Or.inl rfl)]
      rw [hg]
      exact applyCalls_add _ _ (not_mem_clearStatus s _ (Or.inr (Or.inl rfl)))
    · simp only [h2, if_neg, Bool.false_eq_true, not_false_iff]
      by_cases h3 : startswith LABEL "[Merged by Bors]"
      · simp only [h3, if_pos]
        rw [applyCalls_append, applyCalls_append]
        have hg1 : ∀ g : Bool,
            applyCalls (clearStatus s)
              (if g then [Call.remove "peace_sign"] else []) =
              clearStatus s := by
          intro g
          cases g
          · rfl
          · simp [applyCalls, applyCall, clearStatus_filter s _ (Or.inl rfl)]
        have hg2 : ∀ g : Bool,
            applyCalls (clearStatus s)
              (if g then [Call.remove "bors"] else []) = clearStatus s := by
          intro g
          cases g
          · rfl
          · simp [applyCalls, applyCall,
              clearStatus_filter s _ (Or.inr (Or.inl rfl))]
        rw [hg1, hg2]
        exact applyCalls_add _ _ (not_mem_clearStatus s _ (Or.inr (Or.inr rfl)))
      · simp only [h3, if_neg, Bool.false_eq_true, not_false_iff]
        simp [applyCalls]

lemma reconcile_noguard_eq (LABEL : String) (s : List String) :
    reconcile_noguard LABEL s =
      clearStatus s ++
        (if "delegated" == LABEL then ["peace_sign"]
         else if "ready-to-merge" == LABEL then ["bors"]
         else if startswith LABEL "[Merged by Bors]" then ["merge"]
         else []) := by
  unfold reconcile_noguard reconcileCalls_noguard
  simp only [List.contains_cons, List.contains_nil, Bool.or_false]
  rw [applyCalls_append, applyCalls_clear]
  by_cases h1 : ("delegated" == LABEL)
  · simp only [h1, if_pos]
    exact applyCalls_add _ _ (not_mem_clearStatus s _ (Or.inl rfl))
  · simp only [h1, if_neg, Bool.false_eq_true, not_false_iff]
    by_cases h2 : ("ready-to-merge" == LABEL)
    · simp only [h2, if_pos]
      exact applyCalls_add _ _ (not_mem_clearStatus s _ (Or.inr (Or.inl rfl)))
    · simp only [h2, if_neg, Bool.false_eq_true, not_false_iff]
      by_cases h3 : startswith LABEL "[Merged by Bors]"
      · simp only [h3, if_pos]
        exact applyCalls_add _ _ (not_mem_clearStatus s _ (Or.inr (Or.inr rfl)))
      · simp only [h3, if_neg, Bool.false_eq_true, not_false_iff]
        simp [applyCalls]

lemma reconcile_delegated (s : List String) :
    reconcile "delegated" s = clearStatus s ++ ["peace_sign"] := by
  rw [reconcile_eq, if_pos (by decide)]

lemma reconcile_ready (s : List String) :
    reconcile "ready-to-merge" s = clearStatus s ++ ["bors"] := by
  rw [reconcile_eq, if_neg (by decide), if_pos (by decide)]

lemma startswith_merged_ne_delegated {LABEL : String}
    (h : startswith LABEL "[Merged by Bors]" = true) : LABEL ≠ "delegated" := by
  intro he
  rw [he] at h
  exact absurd h (by decide)

lemma startswith_merged_ne_ready {LABEL : String}
    (h : startswith LABEL "[Merged by Bors]" = true) :
    LABEL ≠ "ready-to-merge" := by
  intro he
  rw [he] at h
  exact absurd h (by decide)

lemma cond_neg_of_ne {a LABEL : String} (h : LABEL ≠ a) :
    ¬ ((a == LABEL) = true) := by
  simp only [beq_iff_eq]
  exact fun he => h he.symm

lemma reconcile_merged {LABEL : String} (s : List String)
    (h3 : startswith LABEL "[Merged by Bors]" = true) :
    reconcile LABEL s = clearStatus s ++ ["merge"] := by
  rw [reconcile_eq, if_neg (cond_neg_of_ne (startswith_merged_ne_delegated h3)),
    if_neg (cond_neg_of_ne (startswith_merged_ne_ready h3)), if_pos h3]

lemma reconcile_other {LABEL : String} (s : List String)
    (h1 : LABEL ≠ "delegated") (h2 : LABEL ≠ "ready-to-merge")
    (h3 : startswith LABEL "[Merged by Bors]" = false) :
    reconcile LABEL s = clearStatus s := by
  rw [reconcile_eq, if_neg (cond_neg_of_ne h1), if_neg (cond_neg_of_ne h2),
    if_neg (by simp [h3]), List.append_nil]

lemma reconcileCalls_other {LABEL : String} (s : List String)
    (h1 : LABEL ≠ "delegated") (h2 : LABEL ≠ "ready-to-merge")
    (h3 : startswith LABEL "[Merged by Bors]" = false) :
    reconcileCalls LABEL s =
      [Call.remove "peace_sign", Call.remove "bors", Call.remove "merge"] := by
  unfold reconcileCalls
  simp only [List.contains_cons, List.contains_nil, Bool.or_false]
  rw [if_neg (cond_neg_of_ne h1), if_neg (cond_neg_of_ne h2),
    if_neg (by simp [h3]), List.append_nil]

lemma clearStatus_append (s u : List String) :
    clearStatus (s ++ u) = clearStatus s ++ clearStatus u := by
  simp [clearStatus, List.filter_append]

lemma clearStatus_of_cleared (t : List String)
    (h : ∀ a ∈ t, a ≠ "peace_sign" ∧ a ≠ "bors" ∧ a ≠ "merge") :
    clearStatus t = t := by
  unfold clearStatus
  have hp : t.filter (fun r => r != "peace_sign") = t :=
    List.filter_eq_self.mpr fun a ha => by simp [(h a ha).1]
  rw [hp]
  have hb : t.filter (fun r => r != "bors") = t :=
    List.filter_eq_self.mpr fun a ha => by simp [(h a ha).2.1]
  rw [hb]
  exact List.filter_eq_self.mpr fun a ha => by simp [(h a ha).2.2]

lemma clearStatus_idem (s : List String) :
    clearStatus (clearStatus s) = clearStatus s :=
  clearStatus_of_cleared _ fun _ ha => (mem_clearStatus.mp ha).2

end ZulipEmoji

namespace ZulipEmoji

/-! Lemmas about the main loop over the fetched messages. -/

lemma callsFor_append (i : Nat) (xs ys : List (Nat × Call)) :
    callsFor i (xs ++ ys) = callsFor i xs ++ callsFor i ys := by
  simp [callsFor, List.filter_append]

lemma callsFor_block (i j : Nat) (cs : List Call) :
    callsFor i (cs.map fun c => (j, c)) =
      if (j == i) = true then cs else [] := by
  by_cases h : (j == i) = true <;>
    simp [callsFor, List.filter_map, Function.comp, h]

lemma foldl_applyIdCall (calls : List (Nat × Call)) (msgs : List Message) :
    calls.foldl applyIdCall msgs =
      msgs.map fun m =>
        { m with reactions := applyCalls m.reactions (callsFor m.id calls) } := by
  induction calls generalizing msgs with
  | nil =>
    rw [List.foldl_nil]
    exact (List.map_id' msgs).symm
  | cons ic calls ih =>
    rw [List.foldl_cons, ih, applyIdCall, List.map_map]
    apply List.map_congr_left
    intro m _
    by_cases h : (m.id == ic.1) = true
    · have hji : (ic.1 == m.id) = true := by
        rw [beq_iff_eq] at h ⊢
        exact h.symm
      simp only [Function.comp, h, if_pos, callsFor, List.filter_cons, hji,
        if_true]
      rfl
    · have hji : ¬ ((ic.1 == m.id) = true) := by
        rw [beq_iff_eq] at h ⊢
        exact fun he => h he.symm
      simp only [Function.comp, h, if_neg, if_false, callsFor,
        List.filter_cons, hji]
      rfl

lemma scriptCalls_cons (LABEL pr : String) (m0 : Message)
    (rest : List Message) :
    scriptCalls LABEL pr (m0 :: rest) =
      (if prSearch pr m0.content then
        (reconcileCalls LABEL m0.reactions).map fun c => (m0.id, c)
      else []) ++ scriptCalls LABEL pr rest := by
  rw [scriptCalls, List.flatMap_cons, scriptCalls]

lemma callsFor_scriptCalls_absent (LABEL pr : String) (msgs : List Message)
    (i : Nat) (h : ∀ m ∈ msgs, m.id ≠ i) :
    callsFor i (scriptCalls LABEL pr msgs) = [] := by
  induction msgs with
  | nil => rfl
  | cons m0 rest ih =>
    rw [scriptCalls_cons, callsFor_append,
      ih fun m hm => h m (List.mem_cons_of_mem _ hm)]
    have h0 : ¬ ((m0.id == i) = true) := by
      rw [beq_iff_eq]
      exact h m0 (List.mem_cons_self _ _)
    by_cases hmatch : prSearch pr m0.content = true
    · rw [if_pos hmatch, callsFor_block, if_neg h0, List.append_nil]
    · rw [if_neg hmatch]
      rfl

lemma callsFor_scriptCalls (LABEL pr : String) (msgs : List Message)
    (hnd : (msgs.map Message.id).Nodup) (m : Message) (hm : m ∈ msgs) :
    callsFor m.id (scriptCalls LABEL pr msgs) =
      if prSearch pr m.content then reconcileCalls LABEL m.reactions
      else [] := by
  induction msgs with
  | nil => cases hm
  | cons m0 rest ih =>
    rw [List.map_cons, List.nodup_cons] at hnd
    rw [scriptCalls_cons, callsFor_append]
    rcases List.mem_cons.mp hm with he | hr
    · subst he
      have habs : callsFor m.id (scriptCalls LABEL pr rest) = [] := by
        apply callsFor_scriptCalls_absent
        intro m' hm' hid
        exact hnd.1 (hid ▸ List.mem_map_of_mem Message.id hm')
      rw [habs, List.append_nil]
      by_cases hmatch : prSearch pr m.content = true
      · rw [if_pos hmatch, if_pos hmatch, callsFor_block,
          if_pos (by rw [beq_iff_eq])]
      · rw [if_neg hmatch, if_neg hmatch]
        rfl
    · have h0 : ¬ ((m0.id == m.id) = true) := by
        rw [beq_iff_eq]
        intro he
        exact hnd.1 (he ▸ List.mem_map_of_mem Message.id hr)
      have hblock :
          callsFor m.id
            (if prSearch pr m0.content then
              (reconcileCalls LABEL m0.reactions).map fun c => (m0.id, c)
            else []) = [] := by
        by_cases hmatch : prSearch pr m0.content = true
        · rw [if_pos hmatch, callsFor_block, if_neg h0]
        · rw [if_neg hmatch]
          rfl
      rw [hblock, List.nil_append]
      exact ih hnd.2 hr

end ZulipEmoji

namespace ZulipEmoji

/-! The claims. -/

/-- C1: the pattern built from pull-request number "12" DOES match a message
whose content links pull request 123: `pr_pattern` ends with the escaped
number and `search` looks for it as a substring, with nothing anchoring the
end of the number, so the digits "12" match inside "123".  This contradicts
the exact-suffix matching the specification requires. -/
theorem pr12_matches_pr123_link :
    prSearch "12"
      "https://github.com/leanprover-community/mathlib4/pull/123" = true := by
  decide

/-- C2, counterexample: the loop has no early exit, so with two fetched
messages both linking pull request 123, the second matching message is also
mutated: its `bors` reaction is removed and `peace_sign` is added, while the
claim says it would be left untouched with its original `bors` reaction. -/
theorem second_match_also_mutated :
    (runScript "delegated" "123"
        [⟨1, "https://github.com/leanprover-community/mathlib4/pull/123",
          ["bors"]⟩,
         ⟨2, "https://github.com/leanprover-community/mathlib4/pull/123",
          ["bors"]⟩]).map Message.reactions =
      [["peace_sign"], ["peace_sign"]] ∧
      (["bors"] : List String) ≠ ["peace_sign"] := by
  constructor
  · decide
  · decide

/-- C2, amended: every fetched message whose content matches the
pull-request pattern is reconciled (each from its own snapshotted reactions),
not only the first match; messages whose content does not match are left
unchanged.  Stated for channels whose message ids are pairwise distinct, as
they are in the chat service. -/
theorem all_matching_reconciled (LABEL pr : String) (msgs : List Message)
    (hnd : (msgs.map Message.id).Nodup) :
    runScript LABEL pr msgs =
      msgs.map fun m =>
        if prSearch pr m.content then
          { m with reactions := reconcile LABEL m.reactions }
        else m := by
  rw [runScript, foldl_applyIdCall]
  apply List.map_congr_left
  intro m hm
  rw [callsFor_scriptCalls LABEL pr msgs hnd m hm]
  by_cases h : prSearch pr m.content = true
  · rw [if_pos h, if_pos h]
    rfl
  · rw [if_neg h, if_neg h]
    rfl

/-- C2, witness for the amended theorem at a concrete two-message channel
where both messages match. -/
theorem all_matching_reconciled_witness :
    (([⟨1, "https://github.com/leanprover-community/mathlib4/pull/123",
        ["bors"]⟩,
       ⟨2, "more https://github.com/leanprover-community/mathlib4/pull/123",
        []⟩] : List Message).map Message.id).Nodup ∧
      runScript "delegated" "123"
        [⟨1, "https://github.com/leanprover-community/mathlib4/pull/123",
          ["bors"]⟩,
         ⟨2, "more https://github.com/leanprover-community/mathlib4/pull/123",
          []⟩] =
      ([⟨1, "https://github.com/leanprover-community/mathlib4/pull/123",
         ["bors"]⟩,
        ⟨2, "more https://github.com/leanprover-community/mathlib4/pull/123",
         []⟩] : List Message).map fun m =>
        if prSearch "123" m.content then
          { m with reactions := reconcile "delegated" m.reactions }
        else m :=
  ⟨by decide, all_matching_reconciled "delegated" "123" _ (by decide)⟩

/-- C3: when the label is exactly `delegated`, reconciliation ends with
`peace_sign` present and `bors` and `merge` absent on the matched message,
for every initial reaction state. -/
theorem delegated_final_state (s : List String) :
    "peace_sign" ∈ reconcile "delegated" s ∧
      "bors" ∉ reconcile "delegated" s ∧
      "merge" ∉ reconcile "delegated" s := by
  rw [reconcile_delegated]
  refine ⟨List.mem_append_right _ (by simp), ?_, ?_⟩ <;>
    simp [List.mem_append, mem_clearStatus]

/-- C4: when the label is exactly `ready-to-merge`, reconciliation ends with
`bors` present and `peace_sign` and `merge` absent on the matched message,
for every initial reaction state. -/
theorem ready_final_state (s : List String) :
    "bors" ∈ reconcile "ready-to-merge" s ∧
      "peace_sign" ∉ reconcile "ready-to-merge" s ∧
      "merge" ∉ reconcile "ready-to-merge" s := by
  rw [reconcile_ready]
  refine ⟨List.mem_append_right _ (by simp), ?_, ?_⟩ <;>
    simp [List.mem_append, mem_clearStatus]

/-- C5: when the label starts with the literal prefix `[Merged by Bors]`,
reconciliation ends with `merge` present and `peace_sign` and `bors` absent
on the matched message, for every initial reaction state. -/
theorem merged_final_state (LABEL : String) (s : List String)
    (h : startswith LABEL "[Merged by Bors]" = true) :
    "merge" ∈ reconcile LABEL s ∧
      "peace_sign" ∉ reconcile LABEL s ∧
      "bors" ∉ reconcile LABEL s := by
  rw [reconcile_merged s h]
  refine ⟨List.mem_append_right _ (by simp), ?_, ?_⟩ <;>
    simp [List.mem_append, mem_clearStatus]

/-- C5, witness at the label `[Merged by Bors] pull request #42`. -/
theorem merged_final_state_witness :
    startswith "[Merged by Bors] pull request #42" "[Merged by Bors]" = true ∧
      ("merge" ∈
          reconcile "[Merged by Bors] pull request #42" ["peace_sign", "bors"] ∧
        "peace_sign" ∉
          reconcile "[Merged by Bors] pull request #42" ["peace_sign", "bors"] ∧
        "bors" ∉
          reconcile "[Merged by Bors] pull request #42" ["peace_sign", "bors"]) :=
  ⟨by decide,
    merged_final_state "[Merged by Bors] pull request #42"
      ["peace_sign", "bors"] (by decide)⟩

/-- C6: for a label that is not `delegated`, not `ready-to-merge` and does
not start with `[Merged by Bors]`, the reconciliation issues no add-reaction
call, and the matched message ends with all three status reactions absent,
for every initial reaction state. -/
theorem other_label_no_add (LABEL : String) (s : List String)
    (h1 : LABEL ≠ "delegated") (h2 : LABEL ≠ "ready-to-merge")
    (h3 : startswith LABEL "[Merged by Bors]" = false) :
    (∀ e, Call.add e ∉ reconcileCalls LABEL s) ∧
      "peace_sign" ∉ reconcile LABEL s ∧
      "bors" ∉ reconcile LABEL s ∧
      "merge" ∉ reconcile LABEL s := by
  refine ⟨?_, ?_, ?_, ?_⟩
  · intro e
    rw [reconcileCalls_other s h1 h2 h3]
    simp
  · rw [reconcile_other s h1 h2 h3]
    simp [mem_clearStatus]
  · rw [reconcile_other s h1 h2 h3]
    simp [mem_clearStatus]
  · rw [reconcile_other s h1 h2 h3]
    simp [mem_clearStatus]

/-- C6, witness at the label `WIP`. -/
theorem other_label_no_add_witness :
    ("WIP" ≠ "delegated" ∧ "WIP" ≠ "ready-to-merge" ∧
        startswith "WIP" "[Merged by Bors]" = false) ∧
      ((∀ e, Call.add e ∉ reconcileCalls "WIP" ["peace_sign", "cat"]) ∧
        "peace_sign" ∉ reconcile "WIP" ["peace_sign", "cat"] ∧
        "bors" ∉ reconcile "WIP" ["peace_sign", "cat"] ∧
        "merge" ∉ reconcile "WIP" ["peace_sign", "cat"]) :=
  ⟨⟨by decide, by decide, by decide⟩,
    other_label_no_add "WIP" ["peace_sign", "cat"] (by decide) (by decide)
      (by decide)⟩

/-- C7: when no fetched message matches the pull-request pattern, the script
issues zero calls and every message is left exactly as fetched. -/
theorem no_match_no_mutation (LABEL pr : String) (msgs : List Message)
    (h : ∀ m ∈ msgs, prSearch pr m.content = false) :
    scriptCalls LABEL pr msgs = [] ∧ runScript LABEL pr msgs = msgs := by
  have hc : scriptCalls LABEL pr msgs = [] := by
    induction msgs with
    | nil => rfl
    | cons m0 rest ih =>
      rw [scriptCalls_cons, ih fun m hm => h m (List.mem_cons_of_mem _ hm),
        if_neg (by simp [h m0 (List.mem_cons_self _ _)]), List.nil_append]
  exact ⟨hc, by rw [runScript, hc, List.foldl_nil]⟩

/-- C7, witness at a one-message channel whose message has no link. -/
theorem no_match_no_mutation_witness :
    (∀ m ∈ ([⟨7, "no link in this message", ["peace_sign"]⟩] : List Message),
        prSearch "123" m.content = false) ∧
      (scriptCalls "delegated" "123"
          [⟨7, "no link in this message", ["peace_sign"]⟩] = [] ∧
        runScript "delegated" "123"
            [⟨7, "no link in this message", ["peace_sign"]⟩] =
          [⟨7, "no link in this message", ["peace_sign"]⟩]) :=
  ⟨by decide, no_match_no_mutation "delegated" "123" _ (by decide)⟩

/-- C8: reconciliation is idempotent: running it twice in succession with
the same label leaves the matched message with the same reaction state as
running it once. -/
theorem reconcile_idem (LABEL : String) (s : List String) :
    reconcile LABEL (reconcile LABEL s) = reconcile LABEL s := by
  by_cases h1 : LABEL = "delegated"
  · subst h1
    rw [reconcile_delegated, reconcile_delegated, clearStatus_append,
      clearStatus_idem, show clearStatus ["peace_sign"] = [] from rfl,
      List.append_nil]
  · by_cases h2 : LABEL = "ready-to-merge"
    · subst h2
      rw [reconcile_ready, reconcile_ready, clearStatus_append,
        clearStatus_idem, show clearStatus ["bors"] = [] from rfl,
        List.append_nil]
    · by_cases h3 : startswith LABEL "[Merged by Bors]" = true
      · rw [reconcile_merged s h3, reconcile_merged _ h3, clearStatus_append,
          clearStatus_idem, show clearStatus ["merge"] = [] from rfl,
          List.append_nil]
      · rw [Bool.not_eq_true] at h3
        rw [reconcile_other s h1 h2 h3, reconcile_other _ h1 h2 h3,
          clearStatus_idem]

/-- C9: the presence-guarded re-removals in the `ready-to-merge` and
`[Merged by Bors]` branches are dead code: deleting them yields the same
final reaction state on the matched message, for every label and every
initial reaction state. -/
theorem guarded_removals_dead (LABEL : String) (s : List String) :
    reconcile LABEL s = reconcile_noguard LABEL s := by
  rw [reconcile_eq, reconcile_noguard_eq]

/-- C10: the compiled pattern matches a content exactly when the content
contains, as a contiguous character sequence, the literal link text followed
by the pull-request-number argument taken literally: `re.escape` prevents
any character of the argument from acting as regex syntax. -/
theorem prSearch_eq_literal (pr_number content : String) :
    prSearch pr_number content =
      litOccurs (linkText ++ pr_number.data) content.data := by
  rw [prSearch, pr_pattern, parsePattern_base, parsePattern_reEscape,
    ← List.map_append, searchTokens_lits]

end ZulipEmoji
